import Mathlib

/-!
Verification of the portfolio simulator (src/portfolio-simulator.py).

Modelling conventions for the shallow embedding:
* Python/numpy floats are modelled as exact rationals (`ℚ`); the square root
  and the real-exponent power needed by annualized volatility / annualized
  return live in `ℝ` (`Real.sqrt`, real `rpow`).
* A pandas data frame of closing prices is a list of trading dates (ascending,
  encoded as naturals) together with a price function `date → symbol → price`.
  In the raw (pre-cleaning) table a missing value (NaN cell) is `Option.none`.
* pandas' sample standard deviation of a series with fewer than two entries is
  NaN; NaN is modelled as `Option.none` in `sampleStd` / `annualVol`.  The
  Python comparison `nan > 0` is `False`, which the `none` branch of
  `sharpeOf` mirrors.
* `yf.download(...)["Close"]` columns are the requested tickers; the
  elementwise product `self.data * shares` pairs each ticker's column with the
  share count computed for that ticker, i.e. `List.zip tickers shares`.
* Error exits (early `return` with printed message) are the `Except.error`
  branch, with error kinds named after the spec's taxonomy.
-/

/-- Error kinds of the pipeline (spec section 7 taxonomy). -/
inductive SimError where
  | EmptyData
  | MissingSymbolData
  | InsufficientHistory
  | InvalidPrice
  | DataFetchError
  deriving DecidableEq, Repr

/-- The validated user input: tickers, normalized weights, initial cash
(fields of `PortfolioSimulator` set by `get_user_input`). -/
structure Request where
  tickers : List String
  weights : List ℚ
  initial_cash : ℚ

/-- A raw price table as returned by the price source: rows indexed by date,
one column per symbol, a cell being `none` when the value is missing (NaN). -/
structure RawTable where
  dates : List ℕ
  price : ℕ → String → Option ℚ

/-- A cleaned price table (`self.data` after `fetch_data` succeeded): every
retained date has a price for every requested symbol. -/
structure CleanTable where
  dates : List ℕ
  price : ℕ → String → ℚ

/-- A row of the raw table is complete when every requested ticker has a
value on that date (the rows `dropna()` keeps). -/
def completeRow (raw : RawTable) (tickers : List String) (d : ℕ) : Bool :=
  tickers.all (fun t => (raw.price d t).isSome)

/-- `fetch_data` (lines 114-141): reject an empty table (`data.empty`),
reject a table where some requested column is entirely NaN
(`data.isna().all().any()`), drop the incomplete rows (`data.dropna()`),
and reject the result when fewer than 2 rows survive. -/
def fetchData (tickers : List String) (raw : RawTable) : Except SimError CleanTable :=
  if raw.dates.isEmpty then
    .error .EmptyData
  else if tickers.any (fun t => raw.dates.all (fun d => (raw.price d t).isNone)) then
    .error .MissingSymbolData
  else
    let kept := raw.dates.filter (completeRow raw tickers)
    if kept.length < 2 then
      .error .InsufficientHistory
    else
      .ok ⟨kept, fun d t => (raw.price d t).getD 0⟩

/-- Line 149: `shares = [initial_cash * w / data[ticker].iloc[0] for w, ticker
in zip(weights, tickers)]`.  `iloc[0]` is the first (earliest) cleaned date. -/
def sharesOf (req : Request) (tab : CleanTable) : List ℚ :=
  (req.weights.zip req.tickers).map
    (fun wt => req.initial_cash * wt.1 / tab.price tab.dates.headI wt.2)

/-- Line 151: `portfolio_value = (self.data * shares).sum(axis=1)` — for each
date, the row of prices is multiplied columnwise by the share counts and
summed. -/
def portfolioValue (req : Request) (tab : CleanTable) : List ℚ :=
  tab.dates.map
    (fun d => ((req.tickers.zip (sharesOf req tab)).map
      (fun ts => tab.price d ts.1 * ts.2)).sum)

/-- Line 153: `daily_returns = portfolio_value.pct_change().dropna()` —
`r i = v (i+1) / v i - 1`, one entry per consecutive pair of dates. -/
def dailyReturns (vs : List ℚ) : List ℚ :=
  (vs.zip vs.tail).map (fun p => p.2 / p.1 - 1)

/-- Line 155: `total_return = (portfolio_value.iloc[-1] - initial_cash) /
initial_cash`. -/
def totalReturn (cash : ℚ) (vs : List ℚ) : ℚ :=
  (vs.getLastD 0 - cash) / cash

/-- Line 157: `annual_return = (1 + total_return) ** (252 / len(self.data)) - 1`
(real power, `252 / len` being float division). -/
noncomputable def annualReturn (tr : ℚ) (n : ℕ) : ℝ :=
  (1 + (tr : ℝ)) ^ ((252 : ℝ) / (n : ℝ)) - 1

/-- Mean of a list of rationals (`Series.mean`). -/
def listMean (xs : List ℚ) : ℚ := xs.sum / xs.length

/-- pandas `Series.std()`: sample standard deviation with `N-1` denominator;
NaN (modelled as `none`) when fewer than two entries are present. -/
noncomputable def sampleStd (xs : List ℚ) : Option ℝ :=
  if xs.length < 2 then none
  else some (Real.sqrt (((xs.map (fun x => (x - listMean xs) ^ 2)).sum
    / ((xs.length - 1 : ℕ) : ℚ) : ℚ)))

/-- Line 159: `annual_vol = daily_returns.std() * np.sqrt(252)`; NaN stays
NaN (`none`). -/
noncomputable def annualVol (vs : List ℚ) : Option ℝ :=
  (sampleStd (dailyReturns vs)).map (fun s => s * Real.sqrt 252)

/-- Line 161: the fixed risk-free rate. -/
noncomputable def riskFreeRate : ℝ := 0.02

/-- Line 163: `sharpe_ratio = (annual_return - risk_free_rate) / annual_vol if
annual_vol > 0 else 0`; `nan > 0` is `False`, hence the `none` branch is 0. -/
noncomputable def sharpeOf (ar : ℝ) (av : Option ℝ) : ℝ :=
  match av with
  | some v => if 0 < v then (ar - riskFreeRate) / v else 0
  | none => 0

/-- Line 165: `individual_returns = [(data[t].iloc[-1] / data[t].iloc[0] - 1)
* 100 for t in tickers]`. -/
def individualReturns (req : Request) (tab : CleanTable) : List ℚ :=
  req.tickers.map
    (fun t => (tab.price (tab.dates.getLastD 0) t / tab.price tab.dates.headI t - 1) * 100)

/-- `np.argmax`: index of the first occurrence of the maximum (0 on an empty
array is a placeholder; numpy raises there, and the program never hits it). -/
def argmaxIdx : List ℚ → ℕ
  | [] => 0
  | x :: xs =>
    if xs = [] then 0
    else if xs.getD (argmaxIdx xs) 0 ≤ x then 0 else argmaxIdx xs + 1

/-- `np.argmin`: index of the first occurrence of the minimum. -/
def argminIdx : List ℚ → ℕ
  | [] => 0
  | x :: xs =>
    if xs = [] then 0
    else if x ≤ xs.getD (argminIdx xs) 0 then 0 else argminIdx xs + 1

/-- Line 167: `best_stock = tickers[np.argmax(individual_returns)]`. -/
def bestStock (req : Request) (tab : CleanTable) : String :=
  req.tickers.getD (argmaxIdx (individualReturns req tab)) ""

/-- Line 169: `worst_stock = tickers[np.argmin(individual_returns)]`. -/
def worstStock (req : Request) (tab : CleanTable) : String :=
  req.tickers.getD (argminIdx (individualReturns req tab)) ""

/-- The state `simulate_portfolio` (lines 143-169) leaves behind: the fields
of `PortfolioSimulator` it assigns. -/
structure SimResult where
  portfolio_value : List ℚ
  sharpe_ratio : ℝ
  best_stock : String
  worst_stock : String

/-- `simulate_portfolio` on a cleaned table.  The method has no data-error
exit: every statement of lines 149-169 executes unconditionally (its only
guard is `self.data is None`, which cannot hold once `fetch_data` succeeded). -/
noncomputable def simulate (req : Request) (tab : CleanTable) : SimResult :=
  let pv := portfolioValue req tab
  { portfolio_value := pv
    sharpe_ratio := sharpeOf (annualReturn (totalReturn req.initial_cash pv) tab.dates.length)
      (annualVol pv)
    best_stock := bestStock req tab
    worst_stock := worstStock req tab }

/-- The fetch-then-simulate path of `main` (lines 240-246): `fetch_data`
followed by `simulate_portfolio`, which runs whenever the fetch succeeded. -/
noncomputable def runSimulation (req : Request) (raw : RawTable) : Except SimError SimResult :=
  match fetchData req.tickers raw with
  | .error e => .error e
  | .ok tab => .ok (simulate req tab)

/-- Running maximum of the value series (`portfolio_value.cummax()`),
seeded with the running maximum so far. -/
def cummaxAux (m : ℚ) : List ℚ → List ℚ
  | [] => []
  | x :: xs => max m x :: cummaxAux (max m x) xs

/-- `Series.cummax()`. -/
def cummax : List ℚ → List ℚ
  | [] => []
  | x :: xs => x :: cummaxAux x xs

/-- `Series.max()` (0 on an empty series stands for pandas' NaN; the program
only applies it to series of length at least 2). -/
def listMax : List ℚ → ℚ
  | [] => 0
  | x :: xs => xs.foldl max x

/-- Line 204: `max_drawdown = ((pv.cummax() - pv) / pv.cummax()).max()`. -/
def maxDrawdown (vs : List ℚ) : ℚ :=
  listMax (((cummax vs).zip vs).map (fun p => (p.1 - p.2) / p.1))

/-- `compare_to_benchmark` (lines 172-187): `none` in means the download
threw (caught: `None` out); an empty series makes `iloc[0]` throw, also
caught; otherwise the series is rescaled to start at `initial_cash`. -/
def compareToBenchmark (fetched : Option (List ℚ)) (cash : ℚ) : Option (List ℚ) :=
  match fetched with
  | none => none
  | some [] => none
  | some bs => some (bs.map (fun p => p / bs.headI * cash))

/-- What `display_and_save_results` (lines 190-237) shows and writes. -/
structure DisplayOutput where
  final_value : ℚ
  total_return : ℚ
  annual_return : ℝ
  annual_vol : Option ℝ
  max_drawdown : ℚ
  sharpe_ratio : ℝ
  benchmark : Option (List ℚ)

/-- `display_and_save_results`: recomputes the return metrics from the stored
value series (lines 196-204), reads the stored Sharpe ratio, and appends the
benchmark series only when `compare_to_benchmark` returned one (lines
225-227). -/
noncomputable def displayAndSaveResults (cash : ℚ) (nDates : ℕ) (pv : List ℚ) (sharpe : ℝ)
    (benchFetched : Option (List ℚ)) : DisplayOutput :=
  { final_value := pv.getLastD 0
    total_return := totalReturn cash pv
    annual_return := annualReturn (totalReturn cash pv) nDates
    annual_vol := annualVol pv
    max_drawdown := maxDrawdown pv
    sharpe_ratio := sharpe
    benchmark := compareToBenchmark benchFetched cash }

/-- The spec's `running_peak(date) = max(value[0..date])` (claim formula,
stated independently of the code's `cummax` to compare the two). -/
def specRunningPeak (vs : List ℚ) (i : ℕ) : ℚ :=
  listMax (vs.take (i + 1))

/-- The spec's per-symbol `individual_return = price[last][symbol] /
price[first][symbol] - 1` (claim formula; the code stores it scaled by 100). -/
def specReturn (tab : CleanTable) (t : String) : ℚ :=
  tab.price (tab.dates.getLastD 0) t / tab.price tab.dates.headI t - 1

/-- The spec's end-to-end example request: `tickers=["A","B"],
weights=[0.5,0.5], initial_cash=1000`. -/
def exReq : Request := ⟨["A", "B"], [1/2, 1/2], 1000⟩

/-- The spec's end-to-end example table: day-0 prices `A=100, B=50`, day-1
prices `A=110, B=55`. -/
def exTab : CleanTable :=
  ⟨[0, 1], fun d s => if d = 0 then (if s = "A" then 100 else 50)
    else (if s = "A" then 110 else 55)⟩

/-- A fully populated 2-row raw table whose first-date price for "A" is 0:
no cell is missing, so cleaning keeps both rows. -/
def zeroPriceRaw : RawTable :=
  ⟨[0, 1], fun d s => some (if d = 0 then (if s = "A" then 0 else 50)
    else (if s = "A" then 10 else 55))⟩

/-- A 2-row raw table in which the only requested column is entirely
missing. -/
def allMissingRaw : RawTable := ⟨[0, 1], fun _ _ => none⟩

/-- A fully populated 2-row raw table (every cell present). -/
def fullRaw : RawTable := ⟨[0, 1], fun _ _ => some 1⟩

/-! ### Helper lemmas about list indexing and folds -/

theorem getD_map_of_lt {α β : Type} (f : α → β) (l : List α) (i : ℕ)
    (h : i < l.length) (da : α) (db : β) :
    (l.map f).getD i db = f (l.getD i da) := by
  rw [List.getD_eq_getElem _ _ (by simpa using h), List.getD_eq_getElem _ _ h,
    List.getElem_map]

theorem getD_zip_of_lt {α β : Type} (as : List α) (bs : List β) (i : ℕ)
    (ha : i < as.length) (hb : i < bs.length) (da : α) (db : β) :
    (as.zip bs).getD i (da, db) = (as.getD i da, bs.getD i db) := by
  rw [List.getD_eq_getElem _ _ (by rw [List.length_zip]; omega),
    List.getD_eq_getElem _ _ ha, List.getD_eq_getElem _ _ hb, List.getElem_zip]

theorem zip_map_sum {α β : Type} (f : α → β → ℚ) (da : α) (db : β) :
    ∀ (as : List α) (bs : List β), as.length = bs.length →
    ((as.zip bs).map (fun p => f p.1 p.2)).sum
      = ((List.range as.length).map (fun i => f (as.getD i da) (bs.getD i db))).sum := by
  intro as
  induction as with
  | nil => intro bs _; simp
  | cons a as ih =>
    intro bs hlen
    cases bs with
    | nil => simp at hlen
    | cons b bs =>
      simp only [List.zip_cons_cons, List.map_cons, List.sum_cons, List.length_cons,
        List.range_succ_eq_map, List.map_map, List.getD_cons_zero]
      have hrec := ih bs (by simpa using hlen)
      have hmaps : List.map ((fun i => f ((a :: as).getD i da) ((b :: bs).getD i db)) ∘ Nat.succ)
          (List.range as.length)
          = List.map (fun i => f (as.getD i da) (bs.getD i db)) (List.range as.length) := by
        apply List.map_congr_left
        intro i _
        simp [Function.comp, List.getD_cons_succ]
      rw [hmaps, hrec]

theorem foldl_max_assoc (l : List ℚ) : ∀ (a b : ℚ),
    l.foldl max (max a b) = max a (l.foldl max b) := by
  induction l with
  | nil => intro a b; rfl
  | cons c l ih =>
    intro a b
    simp only [List.foldl_cons]
    rw [max_assoc, ih]

theorem foldl_max_of_ne_nil (l : List ℚ) (h : l ≠ []) (b : ℚ) :
    l.foldl max b = max b (listMax l) := by
  cases l with
  | nil => exact absurd rfl h
  | cons x l =>
    simp only [List.foldl_cons, listMax]
    exact foldl_max_assoc l b x

theorem listMax_cons_of_ne_nil (x : ℚ) (l : List ℚ) (h : l ≠ []) :
    listMax (x :: l) = max x (listMax l) := by
  simp only [listMax]
  exact foldl_max_of_ne_nil l h x

theorem listMax_mem : ∀ (l : List ℚ), l ≠ [] → listMax l ∈ l := by
  intro l
  induction l with
  | nil => intro h; exact absurd rfl h
  | cons x l ih =>
    intro _
    cases l with
    | nil => simp [listMax]
    | cons y l =>
      rw [listMax_cons_of_ne_nil x (y :: l) (by simp)]
      rcases max_choice x (listMax (y :: l)) with h | h
      · rw [h]; exact List.mem_cons_self _ _
      · rw [h]; exact List.mem_cons_of_mem _ (ih (by simp))

theorem le_foldl_max (l : List ℚ) : ∀ (b : ℚ), b ≤ l.foldl max b := by
  induction l with
  | nil => intro b; exact le_refl b
  | cons x l ih => intro b; exact le_trans (le_max_left b x) (ih (max b x))

theorem le_listMax (l : List ℚ) (x : ℚ) (hx : x ∈ l) : x ≤ listMax l := by
  induction l with
  | nil => simp at hx
  | cons y l ih =>
    rcases List.mem_cons.mp hx with rfl | hmem
    · cases l with
      | nil => simp [listMax]
      | cons z l =>
        rw [listMax_cons_of_ne_nil x (z :: l) (by simp)]
        exact le_max_left _ _
    · cases l with
      | nil => simp at hmem
      | cons z l =>
        rw [listMax_cons_of_ne_nil y (z :: l) (by simp)]
        exact le_trans (ih hmem) (le_max_right _ _)

/-! ### Claim theorems (first batch) -/

/-- C9: on the spec's end-to-end example (tickers A and B, weights one half
each, cash 1000, day-0 prices A=100 B=50, day-1 prices A=110 B=55),
the simulator allocates 5 shares of A and 10 of B, values the portfolio at
1000 on day 0 and 1100 on day 1, and reports a total return of 0.10. -/
theorem claimC9_example :
    sharesOf exReq exTab = [5, 10]
    ∧ portfolioValue exReq exTab = [1000, 1100]
    ∧ totalReturn 1000 (portfolioValue exReq exTab) = 1/10 := by
  have h1 : sharesOf exReq exTab = [5, 10] := by
    simp [sharesOf, exReq, exTab, List.headI]
    norm_num
  have h2 : portfolioValue exReq exTab = [1000, 1100] := by
    rw [portfolioValue, h1]
    simp [exReq, exTab, List.headI]
    norm_num
  refine ⟨h1, h2, ?_⟩
  rw [h2]
  norm_num [totalReturn]

/-- C10: with exactly 2 cleaned dates the daily-return series has length 1,
its sample standard deviation (N-1 denominator) is undefined — NaN, modelled
as `none` — so the annualized volatility is too, and the Sharpe ratio the
positive-volatility guard produces is exactly 0 for any annualized return. -/
theorem claimC10_two_dates (req : Request) (tab : CleanTable)
    (h : tab.dates.length = 2) :
    (dailyReturns (portfolioValue req tab)).length = 1
    ∧ annualVol (portfolioValue req tab) = none
    ∧ ∀ ar : ℝ, sharpeOf ar (annualVol (portfolioValue req tab)) = 0 := by
  have hpv : (portfolioValue req tab).length = 2 := by
    simp [portfolioValue, h]
  have hdr : (dailyReturns (portfolioValue req tab)).length = 1 := by
    simp [dailyReturns, List.length_zip, List.length_tail, hpv]
  have hav : annualVol (portfolioValue req tab) = none := by
    simp [annualVol, sampleStd, hdr]
  exact ⟨hdr, hav, fun ar => by rw [hav]; rfl⟩

/-- C10 witness: the two-date example table exercises the theorem. -/
theorem claimC10_witness :
    (dailyReturns (portfolioValue exReq exTab)).length = 1
    ∧ annualVol (portfolioValue exReq exTab) = none
    ∧ ∀ ar : ℝ, sharpeOf ar (annualVol (portfolioValue exReq exTab)) = 0 :=
  claimC10_two_dates exReq exTab rfl

/-- C8: the portfolio metrics that `display_and_save_results` shows are
computed from the stored value series before the benchmark fetch and do not
depend on its outcome; a failed (or empty) benchmark fetch only makes the
benchmark series absent. -/
theorem claimC8_benchmark_isolated (cash : ℚ) (n : ℕ) (pv : List ℚ) (s : ℝ)
    (bf : Option (List ℚ)) :
    (displayAndSaveResults cash n pv s none).benchmark = none
    ∧ (displayAndSaveResults cash n pv s (some [])).benchmark = none
    ∧ (displayAndSaveResults cash n pv s none).final_value
        = (displayAndSaveResults cash n pv s bf).final_value
    ∧ (displayAndSaveResults cash n pv s none).total_return
        = (displayAndSaveResults cash n pv s bf).total_return
    ∧ (displayAndSaveResults cash n pv s none).annual_return
        = (displayAndSaveResults cash n pv s bf).annual_return
    ∧ (displayAndSaveResults cash n pv s none).annual_vol
        = (displayAndSaveResults cash n pv s bf).annual_vol
    ∧ (displayAndSaveResults cash n pv s none).max_drawdown
        = (displayAndSaveResults cash n pv s bf).max_drawdown
    ∧ (displayAndSaveResults cash n pv s none).sharpe_ratio
        = (displayAndSaveResults cash n pv s bf).sharpe_ratio :=
  ⟨rfl, rfl, rfl, rfl, rfl, rfl, rfl, rfl⟩

/-- C6: the annualized return is `(1 + total_return) ^ (252 / N) - 1` with
`total_return = (value[last] - initial_cash) / initial_cash` and `N` the
number of cleaned trading-day rows, which is also the length of the value
series. -/
theorem claimC6_annualized (req : Request) (tab : CleanTable) :
    annualReturn (totalReturn req.initial_cash (portfolioValue req tab)) tab.dates.length
      = (1 + ((((portfolioValue req tab).getLastD 0 - req.initial_cash)
            / req.initial_cash : ℚ) : ℝ))
          ^ ((252 : ℝ) / (((portfolioValue req tab).length : ℕ) : ℝ)) - 1
    ∧ (portfolioValue req tab).length = tab.dates.length := by
  have hlen : (portfolioValue req tab).length = tab.dates.length := by
    simp [portfolioValue]
  exact ⟨by rw [hlen]; rfl, hlen⟩

/-- `fetch_data` can only fail with the empty-data, missing-symbol or
insufficient-history exits; no price-value check exists anywhere in it. -/
theorem fetchData_never_invalidPrice (tickers : List String) (raw : RawTable) :
    fetchData tickers raw ≠ Except.error SimError.InvalidPrice := by
  intro h
  simp only [fetchData] at h
  split_ifs at h <;> simp_all

/-- C2 counterexample: a fully populated table whose first-date price for
"A" is 0 sails through cleaning and `simulate_portfolio` completes — the
run succeeds instead of failing with `InvalidPrice`. -/
theorem claimC2_counterexample :
    zeroPriceRaw.price 0 "A" = some 0
    ∧ (runSimulation exReq zeroPriceRaw).isOk = true
    ∧ runSimulation exReq zeroPriceRaw ≠ Except.error SimError.InvalidPrice := by
  refine ⟨rfl, rfl, fun h => ?_⟩
  have hok : (runSimulation exReq zeroPriceRaw).isOk = true := rfl
  rw [h] at hok
  exact absurd hok (by decide)

/-- C2 amended: the share-allocation division at line 149 is unguarded; no
`InvalidPrice` error exists on any input — a zero first-date price flows into
the division (yielding a junk, in numpy infinite, share count) and the
simulation still returns a result. -/
theorem claimC2_amended (req : Request) (raw : RawTable) :
    runSimulation req raw ≠ Except.error SimError.InvalidPrice := by
  intro h
  unfold runSimulation at h
  cases hfd : fetchData req.tickers raw with
  | ok tab => rw [hfd] at h; exact Except.noConfusion h
  | error e =>
    rw [hfd] at h
    have he : e = SimError.InvalidPrice := by injection h
    rw [he] at hfd
    exact fetchData_never_invalidPrice req.tickers raw hfd

/-- C3 counterexample: on a raw table whose only requested column is entirely
missing, zero complete rows remain (fewer than 2), yet `fetch_data` fails
with `MissingSymbolData` — not `InsufficientHistory` as the claim, read over
every raw table, predicts. -/
theorem claimC3_counterexample :
    fetchData ["A"] allMissingRaw = Except.error SimError.MissingSymbolData
    ∧ (allMissingRaw.dates.filter (completeRow allMissingRaw ["A"])).length < 2
    ∧ fetchData ["A"] allMissingRaw ≠ Except.error SimError.InsufficientHistory := by
  refine ⟨rfl, by decide, fun h => ?_⟩
  have hcomp : fetchData ["A"] allMissingRaw = Except.error SimError.MissingSymbolData := rfl
  rw [hcomp] at h
  have h3 : SimError.MissingSymbolData = SimError.InsufficientHistory := by injection h
  exact absurd h3 (by decide)

/-- C3 amended: provided the raw table is nonempty and no requested column is
entirely missing (those inputs exit earlier with `EmptyData` resp.
`MissingSymbolData`), cleaning drops exactly the date-rows with at least one
missing value among the requested symbols, fails with `InsufficientHistory`
when fewer than 2 complete rows remain, and otherwise returns the table of
exactly the complete rows. -/
theorem claimC3_amended (tickers : List String) (raw : RawTable)
    (hne : raw.dates ≠ [])
    (hcol : ∀ t ∈ tickers, ∃ d ∈ raw.dates, (raw.price d t).isSome) :
    ((raw.dates.filter (completeRow raw tickers)).length < 2 →
      fetchData tickers raw = Except.error SimError.InsufficientHistory)
    ∧ (2 ≤ (raw.dates.filter (completeRow raw tickers)).length →
      ∃ tab : CleanTable, fetchData tickers raw = Except.ok tab
        ∧ tab.dates = raw.dates.filter (completeRow raw tickers)
        ∧ ∀ d ∈ tab.dates, completeRow raw tickers d = true)
    ∧ ∀ d, d ∈ raw.dates.filter (completeRow raw tickers)
        ↔ d ∈ raw.dates ∧ completeRow raw tickers d = true := by
  have hempty : raw.dates.isEmpty = false := by
    simpa [List.isEmpty_iff] using hne
  have hany : tickers.any (fun t => raw.dates.all (fun d => (raw.price d t).isNone)) = false := by
    rw [List.any_eq_false]
    intro t ht
    obtain ⟨d, hd, hsome⟩ := hcol t ht
    rw [List.all_eq_true]
    intro hall
    have hnone := hall d hd
    rw [Option.isNone_iff_eq_none] at hnone
    rw [hnone] at hsome
    simp at hsome
  refine ⟨?_, ?_, ?_⟩
  · intro hlt
    simp only [fetchData, hempty, hany, Bool.false_eq_true, if_false, if_pos hlt]
  · intro hge
    refine ⟨⟨raw.dates.filter (completeRow raw tickers), fun d t => (raw.price d t).getD 0⟩,
      ?_, rfl, ?_⟩
    · simp only [fetchData, hempty, hany, Bool.false_eq_true, if_false,
        if_neg (by omega : ¬(raw.dates.filter (completeRow raw tickers)).length < 2)]
    · intro d hd
      exact (List.mem_filter.mp hd).2
  · intro d
    exact List.mem_filter

/-- C3 witness: a fully populated 2-row table passes both side conditions and
is returned with both rows kept. -/
theorem claimC3_witness :
    ∃ tab : CleanTable, fetchData ["A"] fullRaw = Except.ok tab
      ∧ tab.dates = fullRaw.dates.filter (completeRow fullRaw ["A"])
      ∧ ∀ d ∈ tab.dates, completeRow fullRaw ["A"] d = true :=
  (claimC3_amended ["A"] fullRaw (by decide)
    (by intro t ht; refine ⟨0, by decide, ?_⟩; simp [fullRaw])).2.1 (by decide)

/-- C1: each entry of the value series is the sum over all requested symbols
of the symbol's share count times its price on that date, the share counts
being `initial_cash * weight / price[first_date]` — computed from the first
(earliest) cleaned date only, the same for every date in the series. -/
theorem claimC1_value_series (req : Request) (tab : CleanTable)
    (hlen : req.weights.length = req.tickers.length)
    (k : ℕ) (hk : k < tab.dates.length) :
    (portfolioValue req tab).getD k 0
      = ((List.range req.tickers.length).map (fun i =>
          (req.initial_cash * req.weights.getD i 0
              / tab.price tab.dates.headI (req.tickers.getD i ""))
            * tab.price (tab.dates.getD k 0) (req.tickers.getD i ""))).sum := by
  have hs : (sharesOf req tab).length = req.tickers.length := by
    simp [sharesOf, List.length_zip, hlen]
  have h1 : (portfolioValue req tab).getD k 0
      = ((req.tickers.zip (sharesOf req tab)).map
          (fun ts => tab.price (tab.dates.getD k 0) ts.1 * ts.2)).sum := by
    unfold portfolioValue
    exact getD_map_of_lt _ tab.dates k hk 0 0
  rw [h1]
  rw [zip_map_sum (fun t s => tab.price (tab.dates.getD k 0) t * s) "" 0
    req.tickers (sharesOf req tab) hs.symm]
  apply congrArg List.sum
  apply List.map_congr_left
  intro i hi
  have hi' : i < req.tickers.length := List.mem_range.mp hi
  have hshare : (sharesOf req tab).getD i 0
      = req.initial_cash * req.weights.getD i 0
          / tab.price tab.dates.headI (req.tickers.getD i "") := by
    unfold sharesOf
    rw [getD_map_of_lt _ _ i (by rw [List.length_zip]; omega) ((0 : ℚ), "") 0]
    rw [getD_zip_of_lt _ _ i (by omega) hi' 0 ""]
  rw [hshare, mul_comm]

/-- C1 witness: the end-to-end example at date index 1. -/
theorem claimC1_witness :
    (portfolioValue exReq exTab).getD 1 0
      = ((List.range exReq.tickers.length).map (fun i =>
          (exReq.initial_cash * exReq.weights.getD i 0
              / exTab.price exTab.dates.headI (exReq.tickers.getD i ""))
            * exTab.price (exTab.dates.getD 1 0) (exReq.tickers.getD i ""))).sum :=
  claimC1_value_series exReq exTab rfl 1 (by decide)

/-- A defined sample standard deviation is nonnegative (it is a square
root). -/
theorem sampleStd_nonneg (xs : List ℚ) (s : ℝ) (h : sampleStd xs = some s) :
    0 ≤ s := by
  unfold sampleStd at h
  split_ifs at h
  have hs : Real.sqrt (((xs.map (fun x => (x - listMean xs) ^ 2)).sum
      / ((xs.length - 1 : ℕ) : ℚ) : ℚ)) = s := by injection h
  rw [← hs]
  exact Real.sqrt_nonneg _

/-- A defined annualized volatility is nonnegative. -/
theorem annualVol_nonneg (vs : List ℚ) (v : ℝ) (h : annualVol vs = some v) :
    0 ≤ v := by
  unfold annualVol at h
  cases hs : sampleStd (dailyReturns vs) with
  | none => rw [hs] at h; exact Option.noConfusion h
  | some s =>
    rw [hs] at h
    simp only [Option.map_some'] at h
    have hv : s * Real.sqrt 252 = v := by injection h
    rw [← hv]
    exact mul_nonneg (sampleStd_nonneg _ s hs) (Real.sqrt_nonneg _)

/-- C4: when the annualized volatility is 0 the Sharpe ratio is exactly 0
(the division is never performed); when it is defined and nonzero it is
positive and the Sharpe ratio is `(annual_return - 0.02) / annual_vol`. -/
theorem claimC4_sharpe (vs : List ℚ) (ar : ℝ) :
    (annualVol vs = some 0 → sharpeOf ar (annualVol vs) = 0)
    ∧ (∀ v : ℝ, annualVol vs = some v → v ≠ 0 →
        0 < v ∧ sharpeOf ar (annualVol vs) = (ar - 0.02) / v) := by
  constructor
  · intro h
    rw [h]
    simp [sharpeOf]
  · intro v hv hne
    have hpos : 0 < v := lt_of_le_of_ne (annualVol_nonneg vs v hv) (Ne.symm hne)
    refine ⟨hpos, ?_⟩
    rw [hv]
    simp [sharpeOf, hpos, riskFreeRate]

/-- C4 witness: a constant value series has volatility 0 and Sharpe ratio 0;
the series 1, 2, 1 has positive volatility and the quotient form. -/
theorem claimC4_witness :
    sharpeOf 1 (annualVol [1000, 1000, 1000]) = 0
    ∧ 0 < Real.sqrt (9/8) * Real.sqrt 252
    ∧ sharpeOf 1 (annualVol [1, 2, 1]) = (1 - 0.02) / (Real.sqrt (9/8) * Real.sqrt 252) := by
  have h1 : annualVol [1000, 1000, 1000] = some 0 := by
    norm_num [annualVol, sampleStd, dailyReturns, listMean, List.zip_cons_cons]
  have h2 : annualVol [1, 2, 1] = some (Real.sqrt (9/8) * Real.sqrt 252) := by
    norm_num [annualVol, sampleStd, dailyReturns, listMean, List.zip_cons_cons]
  have hne : Real.sqrt (9/8) * Real.sqrt 252 ≠ 0 :=
    ne_of_gt (mul_pos (Real.sqrt_pos.mpr (by norm_num)) (Real.sqrt_pos.mpr (by norm_num)))
  obtain ⟨hpos, heq⟩ := (claimC4_sharpe [1, 2, 1] 1).2 _ h2 hne
  exact ⟨(claimC4_sharpe [1000, 1000, 1000] 1).1 h1, hpos, heq⟩

theorem cummaxAux_length : ∀ (xs : List ℚ) (m : ℚ), (cummaxAux m xs).length = xs.length := by
  intro xs
  induction xs with
  | nil => intro m; rfl
  | cons x xs ih => intro m; simp [cummaxAux, ih]

theorem cummax_length (vs : List ℚ) : (cummax vs).length = vs.length := by
  cases vs with
  | nil => rfl
  | cons x xs => simp [cummax, cummaxAux_length]

theorem take_ne_nil_of_lt {xs : List ℚ} {i : ℕ} (hi : i < xs.length) :
    xs.take (i + 1) ≠ [] := by
  intro hnil
  rcases List.take_eq_nil_iff.mp hnil with h0 | h0
  · exact Nat.succ_ne_zero i h0
  · rw [h0] at hi; simp at hi

theorem cummaxAux_getD : ∀ (xs : List ℚ) (m : ℚ) (i : ℕ), i < xs.length →
    (cummaxAux m xs).getD i 0 = max m (listMax (xs.take (i + 1))) := by
  intro xs
  induction xs with
  | nil => intro m i hi; simp at hi
  | cons x xs ih =>
    intro m i hi
    cases i with
    | zero => simp [cummaxAux, List.getD_cons_zero, listMax]
    | succ i =>
      have hi' : i < xs.length := by simpa using hi
      simp only [cummaxAux, List.getD_cons_succ]
      rw [ih (max m x) i hi']
      rw [List.take_succ_cons, listMax_cons_of_ne_nil x _ (take_ne_nil_of_lt hi')]
      rw [max_assoc]

theorem cummax_getD (vs : List ℚ) (i : ℕ) (hi : i < vs.length) :
    (cummax vs).getD i 0 = specRunningPeak vs i := by
  cases vs with
  | nil => simp at hi
  | cons x xs =>
    cases i with
    | zero => simp [cummax, specRunningPeak, List.take_succ_cons, listMax]
    | succ i =>
      have hi' : i < xs.length := by simpa using hi
      simp only [cummax, List.getD_cons_succ, specRunningPeak]
      rw [cummaxAux_getD xs x i hi']
      rw [List.take_succ_cons, listMax_cons_of_ne_nil x _ (take_ne_nil_of_lt hi')]

theorem cummax_eq_map_peak (vs : List ℚ) :
    cummax vs = (List.range vs.length).map (fun i => specRunningPeak vs i) := by
  apply List.ext_getElem
  · simp [cummax_length]
  · intro i h1 h2
    have hi : i < vs.length := by simpa [cummax_length] using h1
    rw [List.getElem_map, List.getElem_range]
    rw [← List.getD_eq_getElem (cummax vs) 0 h1]
    exact cummax_getD vs i hi

theorem zip_map_range {α β : Type} (db : β) :
    ∀ (vs : List β) (g : ℕ → α), (((List.range vs.length).map g).zip vs)
      = (List.range vs.length).map (fun i => (g i, vs.getD i db)) := by
  intro vs
  induction vs with
  | nil => intro g; simp
  | cons b bs ih =>
    intro g
    simp only [List.length_cons, List.range_succ_eq_map, List.map_cons, List.map_map,
      List.zip_cons_cons, List.getD_cons_zero]
    rw [ih (g ∘ Nat.succ)]
    congr 1

theorem maxDrawdown_eq_spec (vs : List ℚ) :
    maxDrawdown vs = listMax ((List.range vs.length).map
      (fun i => (specRunningPeak vs i - vs.getD i 0) / specRunningPeak vs i)) := by
  unfold maxDrawdown
  rw [cummax_eq_map_peak, zip_map_range (0 : ℚ) vs, List.map_map]
  congr 1

theorem maxDrawdown_bounds (vs : List ℚ) (hpos : ∀ x ∈ vs, 0 < x) :
    0 ≤ maxDrawdown vs ∧ maxDrawdown vs ≤ 1 := by
  rcases eq_or_ne vs [] with rfl | hne
  · constructor <;> simp [maxDrawdown, cummax, listMax]
  · rw [maxDrawdown_eq_spec]
    have hlen0 : 0 < vs.length := List.length_pos.mpr hne
    have hLne : ((List.range vs.length).map
        (fun i => (specRunningPeak vs i - vs.getD i 0) / specRunningPeak vs i)) ≠ [] := by
      simp only [ne_eq, List.map_eq_nil_iff, List.range_eq_nil]
      omega
    have hmem : ∀ x ∈ ((List.range vs.length).map
        (fun i => (specRunningPeak vs i - vs.getD i 0) / specRunningPeak vs i)),
        0 ≤ x ∧ x ≤ 1 := by
      intro x hx
      obtain ⟨i, hi, rfl⟩ := List.mem_map.mp hx
      have hilt : i < vs.length := List.mem_range.mp hi
      have hv : vs.getD i 0 ∈ vs := by
        rw [List.getD_eq_getElem _ _ hilt]; exact List.getElem_mem hilt
      have hvpos : 0 < vs.getD i 0 := hpos _ hv
      have hvtake : vs.getD i 0 ∈ vs.take (i + 1) := by
        rw [List.getD_eq_getElem _ _ hilt]
        have hlt : i < (vs.take (i + 1)).length := by
          rw [List.length_take]; omega
        have heq : (vs.take (i + 1))[i] = vs[i] := List.getElem_take vs
        rw [← heq]
        exact List.getElem_mem hlt
      have hle : vs.getD i 0 ≤ specRunningPeak vs i := le_listMax _ _ hvtake
      have hpeak : 0 < specRunningPeak vs i := lt_of_lt_of_le hvpos hle
      constructor
      · exact div_nonneg (by linarith) (le_of_lt hpeak)
      · rw [div_le_one hpeak]; linarith
    have hmax := listMax_mem _ hLne
    exact ⟨(hmem _ hmax).1, (hmem _ hmax).2⟩

theorem cummaxAux_of_chain : ∀ (xs : List ℚ) (m : ℚ),
    List.Chain' (· ≤ ·) (m :: xs) → cummaxAux m xs = xs := by
  intro xs
  induction xs with
  | nil => intro m _; rfl
  | cons x xs ih =>
    intro m hch
    rw [List.chain'_cons] at hch
    simp only [cummaxAux]
    rw [max_eq_right hch.1, ih x hch.2]

theorem zip_self_drawdown : ∀ (l : List ℚ),
    ((l.zip l).map (fun p => (p.1 - p.2) / p.1)) = l.map (fun _ => (0 : ℚ)) := by
  intro l
  induction l with
  | nil => rfl
  | cons x l ih =>
    simp only [List.zip_cons_cons, List.map_cons, ih]
    norm_num

theorem listMax_zeros (l : List ℚ) : listMax (l.map (fun _ => (0 : ℚ))) = 0 := by
  rcases eq_or_ne l [] with rfl | hne
  · rfl
  · have hmem := listMax_mem (l.map (fun _ => (0 : ℚ))) (by simpa using hne)
    obtain ⟨x, _, hval⟩ := List.mem_map.mp hmem
    exact hval.symm

theorem maxDrawdown_of_monotone (vs : List ℚ) (hch : List.Chain' (· ≤ ·) vs) :
    maxDrawdown vs = 0 := by
  cases vs with
  | nil => rfl
  | cons v vs' =>
    unfold maxDrawdown
    rw [show cummax (v :: vs') = v :: vs' from by
      simp only [cummax]; rw [cummaxAux_of_chain vs' v hch]]
    rw [zip_self_drawdown, listMax_zeros]

/-- C5: the maximum drawdown is the maximum over all dates of
`(running_peak - value) / running_peak` with the running peak the maximum of
the values so far; for positive value series it lies in [0, 1], and it is 0
for any non-decreasing series. -/
theorem claimC5_max_drawdown (vs : List ℚ) :
    maxDrawdown vs = listMax ((List.range vs.length).map
      (fun i => (specRunningPeak vs i - vs.getD i 0) / specRunningPeak vs i))
    ∧ ((∀ x ∈ vs, 0 < x) → 0 ≤ maxDrawdown vs ∧ maxDrawdown vs ≤ 1)
    ∧ (List.Chain' (· ≤ ·) vs → maxDrawdown vs = 0) :=
  ⟨maxDrawdown_eq_spec vs, maxDrawdown_bounds vs, maxDrawdown_of_monotone vs⟩

/-- C5 witness: the dipping series 2, 1, 2 exercises the bounds, the rising
series 1, 2, 3 the zero-drawdown case. -/
theorem claimC5_witness :
    (0 ≤ maxDrawdown [2, 1, 2] ∧ maxDrawdown [2, 1, 2] ≤ 1)
    ∧ maxDrawdown [1, 2, 3] = 0 :=
  ⟨(claimC5_max_drawdown [2, 1, 2]).2.1 (by intro x hx; fin_cases hx <;> norm_num),
   (claimC5_max_drawdown [1, 2, 3]).2.2 (by
     norm_num [List.chain'_cons])⟩

theorem argmaxIdx_lt : ∀ (l : List ℚ), l ≠ [] → argmaxIdx l < l.length := by
  intro l
  induction l with
  | nil => intro h; exact absurd rfl h
  | cons x xs ih =>
    intro _
    simp only [argmaxIdx]
    rcases eq_or_ne xs [] with rfl | hne
    · simp
    · rw [if_neg hne]
      split_ifs
      · simp
      · simpa using Nat.succ_lt_succ (ih hne)

theorem argminIdx_lt : ∀ (l : List ℚ), l ≠ [] → argminIdx l < l.length := by
  intro l
  induction l with
  | nil => intro h; exact absurd rfl h
  | cons x xs ih =>
    intro _
    simp only [argminIdx]
    rcases eq_or_ne xs [] with rfl | hne
    · simp
    · rw [if_neg hne]
      split_ifs
      · simp
      · simpa using Nat.succ_lt_succ (ih hne)

theorem argmaxIdx_is_max : ∀ (l : List ℚ) (k : ℕ), k < l.length →
    l.getD k 0 ≤ l.getD (argmaxIdx l) 0 := by
  intro l
  induction l with
  | nil => intro k hk; simp at hk
  | cons x xs ih =>
    intro k hk
    simp only [argmaxIdx]
    rcases eq_or_ne xs [] with rfl | hne
    · rw [if_pos rfl]
      have hk0 : k = 0 := by simpa using Nat.lt_one_iff.mp (by simpa using hk)
      subst hk0
      simp
    · rw [if_neg hne]
      by_cases hcmp : xs.getD (argmaxIdx xs) 0 ≤ x
      · rw [if_pos hcmp]
        simp only [List.getD_cons_zero]
        cases k with
        | zero => simp
        | succ k =>
          have hk' : k < xs.length := by simpa using hk
          simp only [List.getD_cons_succ]
          exact le_trans (ih k hk') hcmp
      · rw [if_neg hcmp]
        push_neg at hcmp
        simp only [List.getD_cons_succ]
        cases k with
        | zero => simp only [List.getD_cons_zero]; exact le_of_lt hcmp
        | succ k =>
          have hk' : k < xs.length := by simpa using hk
          simp only [List.getD_cons_succ]
          exact ih k hk'

theorem argminIdx_is_min : ∀ (l : List ℚ) (k : ℕ), k < l.length →
    l.getD (argminIdx l) 0 ≤ l.getD k 0 := by
  intro l
  induction l with
  | nil => intro k hk; simp at hk
  | cons x xs ih =>
    intro k hk
    simp only [argminIdx]
    rcases eq_or_ne xs [] with rfl | hne
    · rw [if_pos rfl]
      have hk0 : k = 0 := by simpa using Nat.lt_one_iff.mp (by simpa using hk)
      subst hk0
      simp
    · rw [if_neg hne]
      by_cases hcmp : x ≤ xs.getD (argminIdx xs) 0
      · rw [if_pos hcmp]
        simp only [List.getD_cons_zero]
        cases k with
        | zero => simp
        | succ k =>
          have hk' : k < xs.length := by simpa using hk
          simp only [List.getD_cons_succ]
          exact le_trans hcmp (ih k hk')
      · rw [if_neg hcmp]
        push_neg at hcmp
        simp only [List.getD_cons_succ]
        cases k with
        | zero => simp only [List.getD_cons_zero]; exact le_of_lt hcmp
        | succ k =>
          have hk' : k < xs.length := by simpa using hk
          simp only [List.getD_cons_succ]
          exact ih k hk'

theorem argmaxIdx_first : ∀ (l : List ℚ) (k : ℕ), k < argmaxIdx l →
    l.getD k 0 < l.getD (argmaxIdx l) 0 := by
  intro l
  induction l with
  | nil => intro k hk; simp [argmaxIdx] at hk
  | cons x xs ih =>
    intro k hk
    simp only [argmaxIdx] at hk ⊢
    rcases eq_or_ne xs [] with rfl | hne
    · rw [if_pos rfl] at hk; simp at hk
    · rw [if_neg hne] at hk ⊢
      by_cases hcmp : xs.getD (argmaxIdx xs) 0 ≤ x
      · rw [if_pos hcmp] at hk; simp at hk
      · rw [if_neg hcmp] at hk ⊢
        push_neg at hcmp
        cases k with
        | zero =>
          simp only [List.getD_cons_zero, List.getD_cons_succ]
          exact hcmp
        | succ k =>
          have hk' : k < argmaxIdx xs := by omega
          simp only [List.getD_cons_succ]
          exact ih k hk'

theorem argminIdx_first : ∀ (l : List ℚ) (k : ℕ), k < argminIdx l →
    l.getD (argminIdx l) 0 < l.getD k 0 := by
  intro l
  induction l with
  | nil => intro k hk; simp [argminIdx] at hk
  | cons x xs ih =>
    intro k hk
    simp only [argminIdx] at hk ⊢
    rcases eq_or_ne xs [] with rfl | hne
    · rw [if_pos rfl] at hk; simp at hk
    · rw [if_neg hne] at hk ⊢
      by_cases hcmp : x ≤ xs.getD (argminIdx xs) 0
      · rw [if_pos hcmp] at hk; simp at hk
      · rw [if_neg hcmp] at hk ⊢
        push_neg at hcmp
        cases k with
        | zero =>
          simp only [List.getD_cons_zero, List.getD_cons_succ]
          exact hcmp
        | succ k =>
          have hk' : k < argminIdx xs := by omega
          simp only [List.getD_cons_succ]
          exact ih k hk'

theorem argmaxIdx_map_scale : ∀ (l : List ℚ),
    argmaxIdx (l.map (fun r => r * 100)) = argmaxIdx l := by
  intro l
  induction l with
  | nil => rfl
  | cons x xs ih =>
    simp only [List.map_cons, argmaxIdx]
    rcases eq_or_ne xs [] with rfl | hne
    · simp
    · have hmapne : xs.map (fun r => r * 100) ≠ [] := by simpa using hne
      rw [if_neg hmapne, if_neg hne, ih]
      have hlt : argmaxIdx xs < xs.length := argmaxIdx_lt xs hne
      rw [getD_map_of_lt (fun r => r * 100) xs (argmaxIdx xs) hlt 0 0]
      simp only [mul_le_mul_right (show (0 : ℚ) < 100 by norm_num)]

theorem argminIdx_map_scale : ∀ (l : List ℚ),
    argminIdx (l.map (fun r => r * 100)) = argminIdx l := by
  intro l
  induction l with
  | nil => rfl
  | cons x xs ih =>
    simp only [List.map_cons, argminIdx]
    rcases eq_or_ne xs [] with rfl | hne
    · simp
    · have hmapne : xs.map (fun r => r * 100) ≠ [] := by simpa using hne
      rw [if_neg hmapne, if_neg hne, ih]
      have hlt : argminIdx xs < xs.length := argminIdx_lt xs hne
      rw [getD_map_of_lt (fun r => r * 100) xs (argminIdx xs) hlt 0 0]
      simp only [mul_le_mul_right (show (0 : ℚ) < 100 by norm_num)]

/-- C7: the best performer is the ticker whose spec-side individual return
`price[last]/price[first] - 1` is maximal, the worst the one where it is
minimal, and on ties the one occurring first in the `tickers` ordering wins
(numpy's first-occurrence argmax/argmin). -/
theorem claimC7_best_worst (req : Request) (tab : CleanTable)
    (hne : req.tickers ≠ []) :
    ∃ i j, i < req.tickers.length ∧ j < req.tickers.length
      ∧ bestStock req tab = req.tickers.getD i ""
      ∧ worstStock req tab = req.tickers.getD j ""
      ∧ (∀ k, k < req.tickers.length →
          specReturn tab (req.tickers.getD k "") ≤ specReturn tab (req.tickers.getD i ""))
      ∧ (∀ k, k < i →
          specReturn tab (req.tickers.getD k "") < specReturn tab (req.tickers.getD i ""))
      ∧ (∀ k, k < req.tickers.length →
          specReturn tab (req.tickers.getD j "") ≤ specReturn tab (req.tickers.getD k ""))
      ∧ (∀ k, k < j →
          specReturn tab (req.tickers.getD j "") < specReturn tab (req.tickers.getD k "")) := by
  have hIR : individualReturns req tab
      = (req.tickers.map (fun t => specReturn tab t)).map (fun r => r * 100) := by
    rw [List.map_map]
    rfl
  have hRlen : (req.tickers.map (fun t => specReturn tab t)).length = req.tickers.length :=
    List.length_map _ _
  have hRne : req.tickers.map (fun t => specReturn tab t) ≠ [] := by
    simpa using hne
  have hgetR : ∀ k, k < req.tickers.length →
      (req.tickers.map (fun t => specReturn tab t)).getD k 0
        = specReturn tab (req.tickers.getD k "") := by
    intro k hk
    exact getD_map_of_lt _ _ k hk "" 0
  have hbestIdx : argmaxIdx (individualReturns req tab)
      = argmaxIdx (req.tickers.map (fun t => specReturn tab t)) := by
    rw [hIR, argmaxIdx_map_scale]
  have hworstIdx : argminIdx (individualReturns req tab)
      = argminIdx (req.tickers.map (fun t => specReturn tab t)) := by
    rw [hIR, argminIdx_map_scale]
  refine ⟨argmaxIdx (req.tickers.map (fun t => specReturn tab t)),
    argminIdx (req.tickers.map (fun t => specReturn tab t)),
    ?_, ?_, ?_, ?_, ?_, ?_, ?_, ?_⟩
  · rw [← hRlen]; exact argmaxIdx_lt _ hRne
  · rw [← hRlen]; exact argminIdx_lt _ hRne
  · unfold bestStock
    rw [hbestIdx]
  · unfold worstStock
    rw [hworstIdx]
  · intro k hk
    have h1 := argmaxIdx_is_max (req.tickers.map (fun t => specReturn tab t)) k
      (by rw [hRlen]; exact hk)
    rw [hgetR k hk] at h1
    rwa [hgetR _ (by rw [← hRlen]; exact argmaxIdx_lt _ hRne)] at h1
  · intro k hk
    have hklen : k < req.tickers.length := by
      have := argmaxIdx_lt (req.tickers.map (fun t => specReturn tab t)) hRne
      omega
    have h1 := argmaxIdx_first (req.tickers.map (fun t => specReturn tab t)) k hk
    rw [hgetR k hklen] at h1
    rwa [hgetR _ (by rw [← hRlen]; exact argmaxIdx_lt _ hRne)] at h1
  · intro k hk
    have h1 := argminIdx_is_min (req.tickers.map (fun t => specReturn tab t)) k
      (by rw [hRlen]; exact hk)
    rw [hgetR k hk] at h1
    rwa [hgetR _ (by rw [← hRlen]; exact argminIdx_lt _ hRne)] at h1
  · intro k hk
    have hklen : k < req.tickers.length := by
      have := argminIdx_lt (req.tickers.map (fun t => specReturn tab t)) hRne
      omega
    have h1 := argminIdx_first (req.tickers.map (fun t => specReturn tab t)) k hk
    rw [hgetR k hklen] at h1
    rwa [hgetR _ (by rw [← hRlen]; exact argminIdx_lt _ hRne)] at h1

/-- C7 witness: the end-to-end example request exercises the theorem. -/
theorem claimC7_witness :
    ∃ i j, i < exReq.tickers.length ∧ j < exReq.tickers.length
      ∧ bestStock exReq exTab = exReq.tickers.getD i ""
      ∧ worstStock exReq exTab = exReq.tickers.getD j ""
      ∧ (∀ k, k < exReq.tickers.length →
          specReturn exTab (exReq.tickers.getD k "") ≤ specReturn exTab (exReq.tickers.getD i ""))
      ∧ (∀ k, k < i →
          specReturn exTab (exReq.tickers.getD k "") < specReturn exTab (exReq.tickers.getD i ""))
      ∧ (∀ k, k < exReq.tickers.length →
          specReturn exTab (exReq.tickers.getD j "") ≤ specReturn exTab (exReq.tickers.getD k ""))
      ∧ (∀ k, k < j →
          specReturn exTab (exReq.tickers.getD j "") < specReturn exTab (exReq.tickers.getD k "")) :=
  claimC7_best_worst exReq exTab (by simp [exReq])
